import Mathlib

/-!
Verification development for the Curve LUT builder (src/Curve/Curve.cpp).

The C++ `double` arithmetic is embedded over `ℚ` (exact rational
arithmetic); machine integers are embedded as `ℤ`/`ℕ`; the C `throw`
of a `std::string` is embedded as `Except String`.  LUTs are `Array ℤ`
built by an explicit sequence of index/value writes so that the
source's write order (later segment wins at shared boundaries) is
preserved.
-/

/-- Error message thrown when a key point coordinate is outside [0,1]. -/
def invalidRangeMsg : String :=
  "invalid key point coordinates, x and y must be in the [0;1] range"

/-- Error message thrown when scaled x positions are not strictly increasing. -/
def nonMonotonicMsg : String :=
  "key point coordinates are too close from each other or not strictly increasing on the x-axis"

/-- Error message thrown when exactly one key point is supplied. -/
def onePointMsg : String :=
  "only one point is defined, this is unlikely to behave as you expect"

/-- Error message thrown by the ACV reader on a truncated buffer. -/
def invalidAcvMsg : String := "invalid acv file"

/-- Error message for an out-of-range preset id. -/
def presetMsg : String := "preset must be 0, 1, 2, 3, 4, 5, 6, 7, 8, 9, or 10"

/-- Error message for an odd-length r array. -/
def oddRMsg : String := "the number of elements in r must be a multiple of 2"

/-- Error message for an odd-length g array. -/
def oddGMsg : String := "the number of elements in g must be a multiple of 2"

/-- Error message for an odd-length b array. -/
def oddBMsg : String := "the number of elements in b must be a multiple of 2"

/-- Error message for an odd-length master array. -/
def oddMasterMsg : String := "the number of elements in master must be a multiple of 2"

/-- `static_cast<int>` of a C++ double: truncation toward zero. -/
def truncQ (v : ℚ) : ℤ := if 0 ≤ v then ⌊v⌋ else ⌈v⌉

/-- `static_cast<int>(x * scale + 0.5)`: the scaled grid position of a coordinate. -/
def gridPos (x : ℚ) (scale : ℤ) : ℤ := truncQ (x * (scale : ℚ) + 1/2)

/-- `std::min(std::max(v, 0), scale)`. -/
def clampScale (v scale : ℤ) : ℤ := min (max v 0) scale

/-- `std::min(std::max(static_cast<int>(v * scale + 0.5), 0), scale)`:
rounding of a normalized value to the integer grid, clamped to `[0, scale]`. -/
def roundClamp (v : ℚ) (scale : ℤ) : ℤ := clampScale (truncQ (v * (scale : ℚ) + 1/2)) scale

deriving instance DecidableEq for Except

set_option allowUnsafeReducibility true
attribute [semireducible] Rat.add Rat.mul Rat.sub Rat.div Rat.inv Rat.ofScientific

/-- One key point of the curve (struct keypoint, the linked list is a `List`). -/
structure keypoint where
  x : ℚ
  y : ℚ
deriving DecidableEq

instance : Inhabited keypoint := ⟨⟨0, 0⟩⟩

/-- The loop body of `parsePoints`: walks the (x,y) pairs, validating the
[0,1] range of each coordinate and the strict increase of the scaled grid
position with respect to the previous point (`last`). -/
def parseLoop (scale : ℤ) : List (ℚ × ℚ) → Option (ℚ × ℚ) → Except String (List keypoint)
  | [], _ => .ok []
  | p :: rest, last =>
    if p.1 < 0 ∨ p.1 > 1 ∨ p.2 < 0 ∨ p.2 > 1 then .error invalidRangeMsg
    else
      match last with
      | some lp =>
        if gridPos lp.1 scale ≥ gridPos p.1 scale then .error nonMonotonicMsg
        else
          match parseLoop scale rest (some p) with
          | .error e => .error e
          | .ok tl => .ok (⟨p.1, p.2⟩ :: tl)
      | none =>
        match parseLoop scale rest (some p) with
        | .error e => .error e
        | .ok tl => .ok (⟨p.1, p.2⟩ :: tl)

/-- `parsePoints` of Curve.cpp: build the validated key point list; a list
with exactly one point is rejected after the loop. -/
def parsePoints (p : List (ℚ × ℚ)) (scale : ℤ) : Except String (List keypoint) :=
  match parseLoop scale p none with
  | .error e => .error e
  | .ok pts => if pts.length = 1 then .error onePointMsg else .ok pts

/-- Group a flat even-length coordinate list into (x,y) pairs
(`for i = 0; i < p.size(); i += 2`). -/
def toPairs : List ℚ → List (ℚ × ℚ)
  | a :: b :: rest => (a, b) :: toPairs rest
  | _ => []

/-- Apply a sequence of index/value writes to a LUT, in order (later writes
win), as the C loops do. -/
def applyWrites (lut : Array ℤ) (ws : List (ℕ × ℤ)) : Array ℤ :=
  ws.foldl (fun a w => a.setD w.1 w.2) lut

/-- The writes of a constant-filling loop `for (i = lo; i < hi; i++) y[i] = v`. -/
def constWrites (lo hi : ℤ) (v : ℤ) : List (ℕ × ℤ) :=
  (List.range (hi - lo).toNat).map (fun (t : ℕ) => ((lo + (t : ℤ)).toNat, v))

/-- The writes of one spline segment: `for (x = xStart; x <= xEnd; x++)`
evaluates the cubic `a + b*xx + c*xx² + d*xx³` at `xx = (x - xStart)/scale`
and stores the rounded, clamped value. -/
def segWrites (scale : ℤ) (a b c d : ℚ) (xStart xEnd : ℤ) : List (ℕ × ℤ) :=
  (List.range (xEnd - xStart + 1).toNat).map (fun (t : ℕ) =>
    let x : ℤ := xStart + (t : ℤ)
    let xx : ℚ := ((x - xStart : ℤ) : ℚ) / (scale : ℚ)
    let yy : ℚ := a + b * xx + c * xx * xx + d * xx * xx * xx
    (x.toNat, clampScale (truncQ (yy * (scale : ℚ) + 1/2)) scale))

/-- The writes of the per-segment loop of `interpolate` (`while (point->next)`),
walking consecutive point pairs with segment index `i`; coefficients are
computed from the segment widths `h` and solved second derivatives `r`. -/
def splineWrites (scale : ℤ) (h r : Array ℚ) : List keypoint → ℕ → List (ℕ × ℤ)
  | p :: q :: rest, i =>
    let hi := h.getD i 0
    let ri := r.getD i 0
    let ri1 := r.getD (i + 1) 0
    let a := p.y
    let b := (q.y - p.y) / hi - hi * ri / 2 - hi * (ri1 - ri) / 6
    let c := ri / 2
    let d := (ri1 - ri) / (6 * hi)
    segWrites scale a b c d (gridPos p.x scale) (gridPos q.x scale)
      ++ splineWrites scale h r (q :: rest) (i + 1)
  | _, _ => []

/-- The spline solve of `interpolate`: segment widths `h`, right-hand side
`r`, tridiagonal matrix with natural boundary rows, forward elimination with
the `den ? 1.0/den : 1.0` singularity guard, then back-substitution.
Returns `(h, r)` with `r` holding the solved second derivatives. -/
def solveR (pts : List keypoint) : Array ℚ × Array ℚ :=
  let n := pts.length
  let xs := pts.map keypoint.x
  let ys := (pts.map keypoint.y).toArray
  let h : Array ℚ := (List.zipWith (fun a b => a - b) xs.tail xs).toArray
  let r0 : Array ℚ := (List.range n).foldl (fun r i =>
    if 1 ≤ i ∧ i < n - 1 then
      r.setD i (6 * ((ys.getD (i + 1) 0 - ys.getD i 0) / h.getD i 0
        - (ys.getD i 0 - ys.getD (i - 1) 0) / h.getD (i - 1) 0))
    else r) (Array.mkArray n 0)
  let bd : Array ℚ := (List.range n).foldl (fun m i =>
    if 1 ≤ i ∧ i < n - 1 then m.setD i (h.getD (i - 1) 0) else m) (Array.mkArray n 0)
  let md : Array ℚ := (List.range n).foldl (fun m i =>
    if 1 ≤ i ∧ i < n - 1 then m.setD i (2 * (h.getD (i - 1) 0 + h.getD i 0)) else m)
    (((Array.mkArray n (0 : ℚ)).setD 0 1).setD (n - 1) 1)
  let ad : Array ℚ := (List.range n).foldl (fun m i =>
    if 1 ≤ i ∧ i < n - 1 then m.setD i (h.getD i 0) else m) (Array.mkArray n 0)
  let fwd := (List.range (n - 1)).foldl (fun (p : Array ℚ × Array ℚ) t =>
    let i := t + 1
    let den := md.getD i 0 - bd.getD i 0 * p.1.getD (i - 1) 0
    let k := if den = 0 then 1 else 1 / den
    (p.1.setD i (p.1.getD i 0 * k),
     p.2.setD i ((p.2.getD i 0 - bd.getD i 0 * p.2.getD (i - 1) 0) * k)) ) (ad, r0)
  let rb := (List.range (n - 1)).reverse.foldl (fun r i =>
    r.setD i (r.getD i 0 - fwd.1.getD i 0 * r.getD (i + 1) 0)) fwd.2
  (h, rb)

/-- `interpolate` of Curve.cpp: from the key point list build the LUT of
size `lutSize`.  An empty list yields the identity table (`y[i] = i`);
otherwise the table is filled by left padding, the per-segment cubic
evaluation, and right padding, in that write order. -/
def interpolate (pts : List keypoint) (lutSize : ℕ) (scale : ℤ) : Array ℤ :=
  match pts with
  | [] => ((List.range lutSize).map (fun i => Int.ofNat i)).toArray
  | p0 :: rest =>
    let hr := solveR (p0 :: rest)
    let pL := (p0 :: rest).getLastD p0
    applyWrites (Array.mkArray lutSize 0)
      (constWrites 0 (gridPos p0.x scale) (roundClamp p0.y scale)
        ++ splineWrites scale hr.1 hr.2 (p0 :: rest) 0
        ++ constWrites (gridPos pL.x scale) (lutSize : ℤ) (roundClamp pL.y scale))

theorem size_applyWrites (ws : List (ℕ × ℤ)) (lut : Array ℤ) :
    (applyWrites lut ws).size = lut.size := by
  induction ws generalizing lut with
  | nil => rfl
  | cons w ws ih =>
    show (applyWrites (lut.setD w.1 w.2) ws).size = lut.size
    rw [ih, Array.size_setD]

theorem getD_oob (a : Array ℤ) (j : ℕ) (h : ¬ j < a.size) : a.getD j 0 = 0 := by
  unfold Array.getD
  split
  · omega
  · rfl

theorem getD_setD_eq (a : Array ℤ) (i : ℕ) (v : ℤ) (h : i < a.size) :
    (a.setD i v).getD i 0 = v := by
  unfold Array.getD
  split
  · simp [Array.setD, h]
  · rw [Array.size_setD] at *; omega

theorem getD_setD_ne (a : Array ℤ) {i j : ℕ} (v : ℤ) (h : i ≠ j) :
    (a.setD i v).getD j 0 = a.getD j 0 := by
  by_cases hj : j < a.size
  · have hj2 : j < (a.setD i v).size := by rw [Array.size_setD]; exact hj
    unfold Array.getD
    rw [dif_pos hj2, dif_pos hj]
    show (a.setD i v)[j] = a[j]
    unfold Array.setD
    split
    · exact Array.get_set_ne _ _ _ _ h
    · rfl
  · rw [getD_oob _ _ (by rw [Array.size_setD]; exact hj), getD_oob _ _ hj]

/-- The value a write sequence leaves at index `j` is the value of the last
write at `j` (when `j` is in bounds), and the original entry otherwise. -/
theorem getD_applyWrites (ws : List (ℕ × ℤ)) (lut : Array ℤ) (j : ℕ) :
    (applyWrites lut ws).getD j 0 =
      match (ws.filter (fun w => w.1 == j)).getLast? with
      | some w => if j < lut.size then w.2 else 0
      | none => lut.getD j 0 := by
  induction ws generalizing lut with
  | nil =>
    show lut.getD j 0 = _
    simp
  | cons w ws ih =>
    show (applyWrites (lut.setD w.1 w.2) ws).getD j 0 = _
    rw [ih]
    by_cases hw : w.1 = j
    · subst hw
      rw [List.filter_cons_of_pos (by simp)]
      cases hl : (ws.filter (fun x => x.1 == w.1)).getLast? with
      | none =>
        have hnil : ws.filter (fun x => x.1 == w.1) = [] := List.getLast?_eq_none_iff.mp hl
        rw [hnil]
        show (lut.setD w.1 w.2).getD w.1 0 = _
        simp only [List.getLast?_singleton]
        by_cases hj : w.1 < lut.size
        · rw [if_pos hj, getD_setD_eq _ _ _ hj]
        · rw [if_neg hj, getD_oob]
          rw [Array.size_setD]; exact hj
      | some wl =>
        rcases hfe : ws.filter (fun x => x.1 == w.1) with _ | ⟨f0, ftl⟩
        · rw [hfe] at hl; exact absurd hl (by simp)
        · rw [hfe] at hl
          rw [hfe, List.getLast?_cons_cons, hl, Array.size_setD]
    · rw [List.filter_cons_of_neg (by simpa using hw)]
      rw [Array.size_setD, getD_setD_ne _ _ hw]

/-- The READ16 macro: big-endian 16-bit read, failing unless at least
2 bytes remain. -/
def read16 : List ℕ → Except String (ℕ × List ℕ)
  | b0 :: b1 :: rest => .ok (b0 * 256 + b1, rest)
  | _ => .error invalidAcvMsg

/-- The inner point loop of an ACV curve block: reads `n` on-disk `(y,x)`
pairs, appending `x/255` then `y/255` to the accumulated flat curve. -/
def readPoints : ℕ → List ℕ → List ℚ → Except String (List ℚ × List ℕ)
  | 0, buf, acc => .ok (acc, buf)
  | n + 1, buf, acc =>
    match read16 buf with
    | .error e => .error e
    | .ok (y, buf1) =>
      match read16 buf1 with
      | .error e => .error e
      | .ok (x, buf2) => readPoints n buf2 (acc ++ [(x : ℚ) / 255, (y : ℚ) / 255])

/-- `curveIndex[] = { 3, 0, 1, 2 }`: the ACV block order (master, R, G, B)
remapped to the internal channel indices. -/
def curveIndexFin (i : ℕ) : Fin 4 := [(3 : Fin 4), 0, 1, 2].getD i 0

/-- The block loop of the ACV decoder (`for i < min(numCurves, 4)`): block
`i` is decoded and assigned to channel `curveIndex[i]` when that channel is
still empty and the decoded curve is non-empty. -/
def acvLoop (i : ℕ) : ℕ → List ℕ → (Fin 4 → List ℚ) → Except String (Fin 4 → List ℚ)
  | 0, _, curve => .ok curve
  | k + 1, buf, curve =>
    match read16 buf with
    | .error e => .error e
    | .ok (numPoints, buf1) =>
      match readPoints numPoints buf1 [] with
      | .error e => .error e
      | .ok (acvCurve, buf2) =>
        acvLoop (i + 1) k buf2
          (if curve (curveIndexFin i) = [] ∧ acvCurve ≠ []
           then Function.update curve (curveIndexFin i) acvCurve else curve)

/-- The ACV byte-buffer decoder of `curveCreate`: version, curve count,
then the block loop over the first `min(numCurves, 4)` blocks. -/
def decodeAcv (bytes : List ℕ) (curve : Fin 4 → List ℚ) : Except String (Fin 4 → List ℚ) :=
  match read16 bytes with
  | .error e => .error e
  | .ok (_, buf1) =>
    match read16 buf1 with
    | .error e => .error e
    | .ok (numCurves, buf2) => acvLoop 0 (min numCurves 4) buf2 curve

/-- Whether `n` on-disk point records (4 bytes each) fit in the buffer;
returns the remaining bytes when they do. -/
def pointsFit : ℕ → List ℕ → Option (List ℕ)
  | 0, buf => some buf
  | n + 1, _ :: _ :: _ :: _ :: rest => pointsFit n rest
  | _ + 1, _ => none

/-- Whether `k` declared curve blocks fit in the buffer. -/
def blocksFit : ℕ → List ℕ → Bool
  | 0, _ => true
  | k + 1, b0 :: b1 :: rest =>
    match pointsFit (b0 * 256 + b1) rest with
    | some rest1 => blocksFit k rest1
    | none => false
  | _ + 1, _ => false

/-- Whether the structure an ACV buffer declares (version, curve count,
then per-block point counts) fits inside the buffer itself. -/
def acvFits (bytes : List ℕ) : Bool :=
  match bytes with
  | _ :: _ :: c0 :: c1 :: rest => blocksFit (min (c0 * 256 + c1) 4) rest
  | _ => false

/-- Big-endian encoding of a 16-bit value. -/
def enc16 (v : ℕ) : List ℕ := [v / 256, v % 256]

/-- On-disk encoding of one ACV point record: `y` then `x`. -/
def encodePoint (p : ℕ × ℕ) : List ℕ := enc16 p.1 ++ enc16 p.2

/-- On-disk encoding of one ACV curve block. -/
def encodeCurve (c : List (ℕ × ℕ)) : List ℕ := enc16 c.length ++ (c.map encodePoint).flatten

/-- A well-formed ACV buffer: version, curve count, then the blocks. -/
def encodeAcv (version : ℕ) (cs : List (List (ℕ × ℕ))) : List ℕ :=
  enc16 version ++ enc16 cs.length ++ (cs.map encodeCurve).flatten

/-- The normalized flat curve decoded from a block of on-disk `(y,x)`
records: each record contributes `x/255` then `y/255`. -/
def acvPoints (c : List (ℕ × ℕ)) : List ℚ :=
  (c.map (fun p => [(p.2 : ℚ) / 255, (p.1 : ℚ) / 255])).flatten

/-- Reference description of the decoder's channel assignment: block `i`
goes to channel `curveIndex[i]` when that channel is still empty and the
decoded curve is non-empty. -/
def applyAcvCurves (i : ℕ) : List (List (ℕ × ℕ)) → (Fin 4 → List ℚ) → Fin 4 → List ℚ
  | [], curve => curve
  | c :: rest, curve =>
    applyAcvCurves (i + 1) rest
      (if curve (curveIndexFin i) = [] ∧ acvPoints c ≠ []
       then Function.update curve (curveIndexFin i) (acvPoints c) else curve)

/-- `if (curve[j].empty()) curve[j] = v`: fill a channel from the preset
table only when it has no points yet. -/
def setIfEmpty (curve : Fin 4 → List ℚ) (j : Fin 4) (v : List ℚ) : Fin 4 → List ℚ :=
  if curve j = [] then Function.update curve j v else curve

/-- The preset table of `curveCreate` (presets 1..10; anything else leaves
the curves unchanged). -/
def presetCurves (preset : ℕ) (curve : Fin 4 → List ℚ) : Fin 4 → List ℚ :=
  if preset = 1 then
    setIfEmpty (setIfEmpty (setIfEmpty curve
      0 [129/1000, 1, 466/1000, 498/1000, 725/1000, 0])
      1 [109/1000, 1, 301/1000, 498/1000, 517/1000, 0])
      2 [98/1000, 1, 235/1000, 498/1000, 423/1000, 0]
  else if preset = 2 then
    setIfEmpty (setIfEmpty (setIfEmpty curve
      0 [0, 0, 25/100, 156/1000, 501/1000, 501/1000, 686/1000, 745/1000, 1, 1])
      1 [0, 0, 25/100, 188/1000, 38/100, 501/1000, 745/1000, 815/1000, 1, 815/1000])
      2 [0, 0, 231/1000, 94/1000, 709/1000, 874/1000, 1, 1]
  else if preset = 3 then
    setIfEmpty curve 3 [0, 0, 5/10, 4/10, 1, 1]
  else if preset = 4 then
    setIfEmpty curve 3 [0, 0, 149/1000, 66/1000, 831/1000, 905/1000, 905/1000, 98/100, 1, 1]
  else if preset = 5 then
    setIfEmpty curve 3 [0, 0, 4/10, 5/10, 1, 1]
  else if preset = 6 then
    setIfEmpty curve 3 [0, 0, 305/1000, 286/1000, 694/1000, 713/1000, 1, 1]
  else if preset = 7 then
    setIfEmpty curve 3 [0, 0, 286/1000, 219/1000, 639/1000, 643/1000, 1, 1]
  else if preset = 8 then
    setIfEmpty curve 3 [0, 1, 1, 0]
  else if preset = 9 then
    setIfEmpty curve 3 [0, 0, 301/1000, 196/1000, 592/1000, 6/10, 686/1000, 737/1000, 1, 1]
  else if preset = 10 then
    setIfEmpty (setIfEmpty (setIfEmpty curve
      0 [0, 11/100, 42/100, 51/100, 1, 95/100])
      1 [0, 0, 5/10, 48/100, 1, 1])
      2 [0, 22/100, 49/100, 44/100, 1, 8/10]
  else curve

/-- Parse and solve the four channels in order (R, G, B, master), as the
`for (i = 0; i < 4; i++)` loop of `curveCreate` does. -/
def buildChannels (curve : Fin 4 → List ℚ) (lutSize : ℕ) (scale : ℤ) :
    Except String (Fin 4 → Array ℤ) :=
  match parsePoints (toPairs (curve 0)) scale with
  | .error e => .error e
  | .ok pts0 =>
  match parsePoints (toPairs (curve 1)) scale with
  | .error e => .error e
  | .ok pts1 =>
  match parsePoints (toPairs (curve 2)) scale with
  | .error e => .error e
  | .ok pts2 =>
  match parsePoints (toPairs (curve 3)) scale with
  | .error e => .error e
  | .ok pts3 =>
    .ok (fun j =>
      if j = 0 then interpolate pts0 lutSize scale
      else if j = 1 then interpolate pts1 lutSize scale
      else if j = 2 then interpolate pts2 lutSize scale
      else interpolate pts3 lutSize scale)

/-- The master composition step of `curveCreate`: when the master curve was
supplied (`!curve[3].empty()`), each color channel LUT is recomputed as
`graph[i][j] = graph[3][graph[i][j]]`; otherwise nothing changes. -/
def composeMaster (master : List ℚ) (g : Fin 4 → Array ℤ) : Fin 4 → Array ℤ :=
  if master = [] then g
  else fun i => if i.val < 3 then (g i).map (fun v => (g 3).getD v.toNat 0) else g i

/-- Parse and solve a single channel: the body of the per-channel loop. -/
def solveChannel (c : List ℚ) (lutSize : ℕ) (scale : ℤ) : Except String (Array ℤ) :=
  match parsePoints (toPairs c) scale with
  | .error e => .error e
  | .ok pts => .ok (interpolate pts lutSize scale)

/-- The raw (pre-composition) LUTs of a set of resolved channel curves. -/
def rawLuts (curves : Fin 4 → List ℚ) (bits : ℕ) : Fin 4 → Array ℤ :=
  fun i => ((solveChannel (curves i) (2 ^ bits) ((2 ^ bits : ℤ) - 1)).toOption).getD #[]

/-- The LUT-building portion of `curveCreate`: argument validation, ACV
decoding, preset resolution, per-channel parse + spline interpolation, and
the final master composition. -/
def curveCreateLUTs (preset : ℕ) (rC gC bC mC : List ℚ) (acv : Option (List ℕ))
    (bits : ℕ) : Except String (Fin 4 → Array ℤ) :=
  if 10 < preset then .error presetMsg
  else if rC.length % 2 = 1 then .error oddRMsg
  else if gC.length % 2 = 1 then .error oddGMsg
  else if bC.length % 2 = 1 then .error oddBMsg
  else if mC.length % 2 = 1 then .error oddMasterMsg
  else
    match (match acv with
           | some bytes => decodeAcv bytes
              (fun j => if j = 0 then rC else if j = 1 then gC else if j = 2 then bC else mC)
           | none => .ok
              (fun j => if j = 0 then rC else if j = 1 then gC else if j = 2 then bC else mC)) with
    | .error e => .error e
    | .ok curve1 =>
      match buildChannels (presetCurves preset curve1) (2 ^ bits) ((2 ^ bits : ℤ) - 1) with
      | .error e => .error e
      | .ok g => .ok (composeMaster (presetCurves preset curve1 3) g)

/-- For coordinates in [0,1] and a non-negative scale, the truncating cast
agrees with round-half-up: `(int)(x*scale + 0.5) = floor(x*scale + 0.5)`. -/
theorem gridPos_eq_floor (x : ℚ) (scale : ℤ) (hx : 0 ≤ x) (hs : 0 ≤ scale) :
    gridPos x scale = ⌊x * (scale : ℚ) + 1/2⌋ := by
  unfold gridPos truncQ
  rw [if_pos]
  have : 0 ≤ x * (scale : ℚ) := mul_nonneg hx (by exact_mod_cast hs)
  linarith

theorem getD_mkArray_zero (n j : ℕ) : (Array.mkArray n (0 : ℤ)).getD j 0 = 0 := by
  unfold Array.getD
  split
  · simp
  · rfl

/-- The LUT built by `interpolate` always has exactly `lutSize` entries. -/
theorem interpolate_size (pts : List keypoint) (lutSize : ℕ) (scale : ℤ) :
    (interpolate pts lutSize scale).size = lutSize := by
  cases pts with
  | nil =>
    show (((List.range lutSize).map (fun i => Int.ofNat i)).toArray).size = lutSize
    rw [Array.size_toArray, List.length_map, List.length_range]
  | cons p0 rest =>
    show (applyWrites (Array.mkArray lutSize 0) _).size = lutSize
    rw [size_applyWrites, Array.size_mkArray]

/-- Unfolding of `interpolate` on a non-empty point list into its write
sequence: left padding, spline segments, right padding. -/
theorem interpolate_cons_def (p0 : keypoint) (rest : List keypoint) (lutSize : ℕ) (scale : ℤ) :
    interpolate (p0 :: rest) lutSize scale =
      applyWrites (Array.mkArray lutSize 0)
        (constWrites 0 (gridPos p0.x scale) (roundClamp p0.y scale)
          ++ splineWrites scale (solveR (p0 :: rest)).1 (solveR (p0 :: rest)).2 (p0 :: rest) 0
          ++ constWrites (gridPos ((p0 :: rest).getLastD p0).x scale) (lutSize : ℤ)
              (roundClamp ((p0 :: rest).getLastD p0).y scale)) := rfl

theorem clampScale_nonneg (v scale : ℤ) (hs : 0 ≤ scale) : 0 ≤ clampScale v scale := by
  unfold clampScale
  omega

theorem clampScale_le (v scale : ℤ) : clampScale v scale ≤ scale := by
  unfold clampScale
  omega

theorem gridPos_nonneg (x : ℚ) (scale : ℤ) (hx : 0 ≤ x) (hs : 0 ≤ scale) :
    0 ≤ gridPos x scale := by
  rw [gridPos_eq_floor x scale hx hs]
  have hsc : (0 : ℚ) ≤ (scale : ℚ) := by exact_mod_cast hs
  have h0 : (0 : ℚ) ≤ x * (scale : ℚ) + 1/2 := by nlinarith
  exact Int.le_floor.mpr (by exact_mod_cast h0)

theorem gridPos_le_scale (x : ℚ) (scale : ℤ) (hx0 : 0 ≤ x) (hx1 : x ≤ 1) (hs : 0 ≤ scale) :
    gridPos x scale ≤ scale := by
  rw [gridPos_eq_floor x scale hx0 hs]
  have hsc : (0 : ℚ) ≤ (scale : ℚ) := by exact_mod_cast hs
  have h1 : x * (scale : ℚ) + 1/2 ≤ (scale : ℚ) + 1/2 := by nlinarith
  calc ⌊x * (scale : ℚ) + 1/2⌋ ≤ ⌊(scale : ℚ) + 1/2⌋ := Int.floor_le_floor h1
    _ = scale := by
        rw [add_comm, Int.floor_add_int]
        norm_num

theorem mem_constWrites {w : ℕ × ℤ} {lo hi v : ℤ} (hw : w ∈ constWrites lo hi v) :
    ∃ t : ℕ, (t : ℤ) < hi - lo ∧ w = ((lo + (t : ℤ)).toNat, v) := by
  unfold constWrites at hw
  obtain ⟨t, ht, hwt⟩ := List.mem_map.mp hw
  have htl := List.mem_range.mp ht
  exact ⟨t, by omega, hwt.symm⟩

theorem mem_segWrites {w : ℕ × ℤ} {scale : ℤ} {a b c d : ℚ} {xs xe : ℤ}
    (hw : w ∈ segWrites scale a b c d xs xe) :
    ∃ t : ℕ, (t : ℤ) < xe - xs + 1 ∧ w.1 = (xs + (t : ℤ)).toNat ∧
      ∃ q, w.2 = clampScale q scale := by
  unfold segWrites at hw
  obtain ⟨t, ht, hwt⟩ := List.mem_map.mp hw
  have htl := List.mem_range.mp ht
  refine ⟨t, by omega, ?_, ?_⟩
  · rw [← hwt]
  · exact ⟨_, by rw [← hwt]⟩

theorem mem_splineWrites_val {scale : ℤ} {h r : Array ℚ} :
    ∀ (pts : List keypoint) (i : ℕ) (w : ℕ × ℤ), w ∈ splineWrites scale h r pts i →
      ∃ q, w.2 = clampScale q scale
  | [], _, w, hw => by simp [splineWrites] at hw
  | [p], _, w, hw => by simp [splineWrites] at hw
  | p :: q :: rest, i, w, hw => by
    rw [splineWrites] at hw
    rcases List.mem_append.mp hw with h1 | h2
    · obtain ⟨t, _, _, hq⟩ := mem_segWrites h1
      exact hq
    · exact mem_splineWrites_val (q :: rest) (i + 1) w h2

theorem mem_splineWrites_lb {scale : ℤ} {h r : Array ℚ} :
    ∀ (p : keypoint) (tl : List keypoint) (i : ℕ) (w : ℕ × ℤ),
      List.Chain' (fun a b => gridPos a.x scale < gridPos b.x scale) (p :: tl) →
      w ∈ splineWrites scale h r (p :: tl) i →
      ∃ z : ℤ, w.1 = z.toNat ∧ gridPos p.x scale ≤ z
  | _, [], _, w, _, hw => by simp [splineWrites] at hw
  | p, q :: rest, i, w, hc, hw => by
    rw [splineWrites] at hw
    rcases List.mem_append.mp hw with h1 | h2
    · obtain ⟨t, ht, hidx, -⟩ := mem_segWrites h1
      exact ⟨gridPos p.x scale + (t : ℤ), hidx, by omega⟩
    · obtain ⟨hpq, hc2⟩ := List.chain'_cons.mp hc
      obtain ⟨z, hz1, hz2⟩ := mem_splineWrites_lb q rest (i + 1) w hc2 h2
      exact ⟨z, hz1, by omega⟩

theorem chain_last_ge {scale : ℤ} :
    ∀ (l : List keypoint) (p d : keypoint),
      List.Chain' (fun a b => gridPos a.x scale < gridPos b.x scale) (p :: l) →
      gridPos p.x scale ≤ gridPos ((p :: l).getLastD d).x scale
  | [], _, _, _ => le_refl _
  | q :: l, p, d, hc => by
    obtain ⟨hpq, hc2⟩ := List.chain'_cons.mp hc
    have hrec := chain_last_ge l q d hc2
    have hstep : (p :: q :: l).getLastD d = (q :: l).getLastD d := by simp [List.getLastD]
    rw [hstep]
    omega

/-- The final value at `j` is either the untouched initial entry or the
value of some write in the sequence. -/
theorem applyWrites_getD_cases (lut : Array ℤ) (ws : List (ℕ × ℤ)) (j : ℕ) :
    (applyWrites lut ws).getD j 0 = lut.getD j 0 ∨
    ∃ w ∈ ws, (applyWrites lut ws).getD j 0 = w.2 := by
  rw [getD_applyWrites]
  cases hl : (ws.filter (fun w => w.1 == j)).getLast? with
  | none => left; rfl
  | some w =>
    by_cases hj : j < lut.size
    · right
      refine ⟨w, ?_, if_pos hj⟩
      exact List.mem_of_mem_filter (List.mem_of_mem_getLast? (by rw [hl]; exact rfl))
    · left
      show (if j < lut.size then w.2 else 0) = lut.getD j 0
      rw [if_neg hj, getD_oob _ _ hj]

/-- On valid coordinates, `parseLoop` succeeds exactly when the scaled grid
positions are strictly increasing (also with respect to the previous point
`last`), and fails with the non-monotonicity error otherwise. -/
theorem parseLoop_spec (scale : ℤ) (l : List (ℚ × ℚ)) :
    ∀ last : Option (ℚ × ℚ),
    (∀ p ∈ l, ¬(p.1 < 0 ∨ p.1 > 1 ∨ p.2 < 0 ∨ p.2 > 1)) →
    parseLoop scale l last =
      if (last.toList ++ l).Chain' (fun p q => gridPos p.1 scale < gridPos q.1 scale)
      then .ok (l.map (fun p => ⟨p.1, p.2⟩))
      else .error nonMonotonicMsg := by
  induction l with
  | nil =>
    intro last _
    rw [if_pos]
    · rfl
    · cases last
      · exact List.chain'_nil
      · exact List.chain'_singleton _
  | cons p rest ih =>
    intro last hval
    have hp : ¬(p.1 < 0 ∨ p.1 > 1 ∨ p.2 < 0 ∨ p.2 > 1) := hval p (by simp)
    have hrest : ∀ q ∈ rest, ¬(q.1 < 0 ∨ q.1 > 1 ∨ q.2 < 0 ∨ q.2 > 1) :=
      fun q hq => hval q (by simp [hq])
    cases last with
    | none =>
      simp only [parseLoop, if_neg hp]
      rw [ih (some p) hrest]
      simp only [Option.toList, List.nil_append, List.singleton_append]
      by_cases hc : (p :: rest).Chain' (fun a b => gridPos a.1 scale < gridPos b.1 scale)
      · rw [if_pos hc, if_pos hc]
        rfl
      · rw [if_neg hc, if_neg hc]
    | some lp =>
      simp only [parseLoop, if_neg hp]
      have hchain : (lp :: p :: rest).Chain'
          (fun a b => gridPos a.1 scale < gridPos b.1 scale)
          ↔ gridPos lp.1 scale < gridPos p.1 scale ∧
            (p :: rest).Chain' (fun a b => gridPos a.1 scale < gridPos b.1 scale) :=
        List.chain'_cons
      simp only [Option.toList, List.singleton_append]
      by_cases hg : gridPos lp.1 scale ≥ gridPos p.1 scale
      · rw [if_pos hg, if_neg]
        rw [hchain]
        rintro ⟨hlt, -⟩
        omega
      · rw [if_neg hg]
        rw [ih (some p) hrest]
        simp only [Option.toList, List.singleton_append]
        by_cases hc : (p :: rest).Chain' (fun a b => gridPos a.1 scale < gridPos b.1 scale)
        · rw [if_pos hc, if_pos (hchain.mpr ⟨by omega, hc⟩)]
          rfl
        · rw [if_neg hc, if_neg]
          rw [hchain]
          rintro ⟨-, hc2⟩
          exact hc hc2

/-- Valid-range hypotheses in conjunction form imply the negated disjunction
tested by the parse loop. -/
theorem range_conj_imp (l : List (ℚ × ℚ))
    (hval : ∀ p ∈ l, 0 ≤ p.1 ∧ p.1 ≤ 1 ∧ 0 ≤ p.2 ∧ p.2 ≤ 1) :
    ∀ p ∈ l, ¬(p.1 < 0 ∨ p.1 > 1 ∨ p.2 < 0 ∨ p.2 > 1) := by
  intro p hp
  have h := hval p hp
  push_neg
  exact ⟨h.1, h.2.1, h.2.2.1, h.2.2.2⟩

/-- C7: for inputs with coordinates in [0,1] whose scaled grid positions
are strictly increasing, `parsePoints` fails with the degenerate-curve
error if and only if exactly one point is supplied, and succeeds for zero
or at least two points. -/
theorem c7_degenerate_iff_one_point (ps : List (ℚ × ℚ)) (scale : ℤ)
    (hval : ∀ p ∈ ps, 0 ≤ p.1 ∧ p.1 ≤ 1 ∧ 0 ≤ p.2 ∧ p.2 ≤ 1)
    (hmono : ps.Chain' (fun p q => gridPos p.1 scale < gridPos q.1 scale)) :
    (parsePoints ps scale = .error onePointMsg ↔ ps.length = 1) ∧
    (ps.length ≠ 1 → parsePoints ps scale = .ok (ps.map (fun p => ⟨p.1, p.2⟩))) := by
  have hspec := parseLoop_spec scale ps none (range_conj_imp ps hval)
  rw [if_pos (by simpa using hmono)] at hspec
  have hred : parsePoints ps scale =
      if ps.length = 1 then Except.error onePointMsg
      else Except.ok (ps.map (fun p => ⟨p.1, p.2⟩)) := by
    unfold parsePoints
    rw [hspec]
    show (if (ps.map (fun p => (⟨p.1, p.2⟩ : keypoint))).length = 1 then _ else _) = _
    rw [List.length_map]
  rw [hred]
  by_cases hlen : ps.length = 1
  · rw [if_pos hlen]
    exact ⟨⟨fun _ => hlen, fun _ => rfl⟩, fun h => absurd hlen h⟩
  · rw [if_neg hlen]
    exact ⟨⟨fun h => absurd h (by simp), fun h => absurd h hlen⟩, fun _ => rfl⟩

/-- C7 witness: the two-point identity curve parses successfully and is not
the degenerate-curve error; instantiates the theorem at a concrete input. -/
theorem c7_degenerate_iff_one_point_witness :
    (parsePoints [((0:ℚ), 0), (1, 1)] 255 = .error onePointMsg
      ↔ [((0:ℚ), 0), (1, 1)].length = 1) ∧
    ([((0:ℚ), 0), (1, 1)].length ≠ 1 →
      parsePoints [((0:ℚ), 0), (1, 1)] 255
        = .ok ([((0:ℚ), 0), (1, 1)].map (fun p => ⟨p.1, p.2⟩))) :=
  c7_degenerate_iff_one_point [((0:ℚ), 0), (1, 1)] 255 (by decide)
    (by simp only [List.chain'_cons, List.chain'_singleton, and_true]; decide)

/-- C6 counterexample: a point list with an out-of-range first coordinate
and a later collapsing pair fails with the range error, not with the
non-monotonicity error the claim requires. -/
theorem c6_counterexample :
    ⌊(2/5 : ℚ) * 255 + 1/2⌋ ≤ ⌊(1/2 : ℚ) * 255 + 1/2⌋ ∧
    parsePoints [((3:ℚ), 0), (1/2, 1/2), (2/5, 1/2)] 255 = .error invalidRangeMsg ∧
    invalidRangeMsg ≠ nonMonotonicMsg :=
  ⟨by decide, by decide, by decide⟩

/-- C6 (amended): for points whose coordinates all lie in [0,1], if some
consecutive pair satisfies `floor(x_k*scale + 0.5) ≥ floor(x_{k+1}*scale + 0.5)`
then `parsePoints` fails with the non-monotonicity error. -/
theorem c6_nonmonotonic_error (ps : List (ℚ × ℚ)) (scale : ℤ) (hs : 0 ≤ scale)
    (hval : ∀ p ∈ ps, 0 ≤ p.1 ∧ p.1 ≤ 1 ∧ 0 ≤ p.2 ∧ p.2 ≤ 1)
    (hviol : ∃ k, ∃ hk : k < ps.length - 1,
      ⌊(ps.get ⟨k + 1, by omega⟩).1 * (scale : ℚ) + 1/2⌋
        ≤ ⌊(ps.get ⟨k, by omega⟩).1 * (scale : ℚ) + 1/2⌋) :
    parsePoints ps scale = .error nonMonotonicMsg := by
  have hnc : ¬ ps.Chain' (fun p q => gridPos p.1 scale < gridPos q.1 scale) := by
    intro hc
    obtain ⟨k, hk, hle⟩ := hviol
    have hlt := List.chain'_iff_get.mp hc k hk
    have h1 : gridPos (ps.get ⟨k, by omega⟩).1 scale
        = ⌊(ps.get ⟨k, by omega⟩).1 * (scale : ℚ) + 1/2⌋ :=
      gridPos_eq_floor _ _ (hval _ (ps.get_mem _ _)).1 hs
    have h2 : gridPos (ps.get ⟨k + 1, by omega⟩).1 scale
        = ⌊(ps.get ⟨k + 1, by omega⟩).1 * (scale : ℚ) + 1/2⌋ :=
      gridPos_eq_floor _ _ (hval _ (ps.get_mem _ _)).1 hs
    rw [h1, h2] at hlt
    omega
  have hspec := parseLoop_spec scale ps none (range_conj_imp ps hval)
  rw [if_neg (by simpa using hnc)] at hspec
  unfold parsePoints
  rw [hspec]

/-- C6 witness: two distinct in-range points that both land on grid index
128 at 8-bit depth are rejected with the non-monotonicity error. -/
theorem c6_nonmonotonic_error_witness :
    parsePoints [((1/2 : ℚ), 0), (251/500, 1)] 255 = .error nonMonotonicMsg :=
  c6_nonmonotonic_error [((1/2 : ℚ), 0), (251/500, 1)] 255 (by decide) (by decide)
    ⟨0, by decide, by decide⟩

/-- The identity branch of `interpolate`: entry `j` of the empty-curve LUT
is `j` itself. -/
theorem interpolate_nil_getD (lutSize : ℕ) (scale : ℤ) (j : ℕ) (hj : j < lutSize) :
    (interpolate [] lutSize scale).getD j 0 = (j : ℤ) := by
  show (((List.range lutSize).map (fun i => Int.ofNat i)).toArray).getD j 0 = (j : ℤ)
  have hsz : j < (((List.range lutSize).map (fun i => Int.ofNat i)).toArray).size := by
    rw [Array.size_toArray, List.length_map, List.length_range]; exact hj
  unfold Array.getD
  rw [dif_pos hsz]
  rw [Array.get_eq_getElem]
  simp only [List.getElem_toArray, List.getElem_map, List.getElem_range]
  rfl

/-- C2: for every bit depth in 8..16, an empty key point list produces the
exact identity table of size `2^bits`. -/
theorem c2_empty_identity (bits : ℕ) (h8 : 8 ≤ bits) (h16 : bits ≤ 16) :
    (interpolate [] (2 ^ bits) ((2 ^ bits : ℤ) - 1)).size = 2 ^ bits ∧
    ∀ j < 2 ^ bits, (interpolate [] (2 ^ bits) ((2 ^ bits : ℤ) - 1)).getD j 0 = (j : ℤ) := by
  constructor
  · exact interpolate_size [] (2 ^ bits) ((2 ^ bits : ℤ) - 1)
  · exact fun j hj => interpolate_nil_getD (2 ^ bits) ((2 ^ bits : ℤ) - 1) j hj

/-- C2 witness: the identity table at 8-bit depth. -/
theorem c2_empty_identity_witness :
    (interpolate [] (2 ^ 8) ((2 ^ 8 : ℤ) - 1)).size = 2 ^ 8 ∧
    ∀ j < 2 ^ 8, (interpolate [] (2 ^ 8) ((2 ^ 8 : ℤ) - 1)).getD j 0 = (j : ℤ) :=
  c2_empty_identity 8 (by decide) (by decide)

/-- C3: for every valid key point list (empty, or at least two points with
coordinates in [0,1] and strictly increasing grid positions) and every bit
depth in 8..16, the LUT has length `2^bits` and every entry lies in
`[0, 2^bits - 1]`. -/
theorem c3_lut_size_and_range (bits : ℕ) (h8 : 8 ≤ bits) (h16 : bits ≤ 16)
    (lutSize : ℕ) (scale : ℤ) (hlut : lutSize = 2 ^ bits)
    (hscale : scale = (2 ^ bits : ℤ) - 1) (pts : List keypoint)
    (hval : ∀ p ∈ pts, 0 ≤ p.x ∧ p.x ≤ 1 ∧ 0 ≤ p.y ∧ p.y ≤ 1)
    (hmono : pts.Chain' (fun a b => gridPos a.x scale < gridPos b.x scale))
    (hlen : pts = [] ∨ 2 ≤ pts.length) :
    (interpolate pts lutSize scale).size = lutSize ∧
    ∀ j < lutSize, 0 ≤ (interpolate pts lutSize scale).getD j 0 ∧
      (interpolate pts lutSize scale).getD j 0 ≤ scale := by
  have hpow : (0 : ℤ) < 2 ^ bits := pow_pos (by norm_num) bits
  have hs : 0 ≤ scale := by rw [hscale]; omega
  refine ⟨interpolate_size pts lutSize scale, ?_⟩
  intro j hj
  cases pts with
  | nil =>
    rw [interpolate_nil_getD lutSize scale j hj]
    constructor
    · exact Int.natCast_nonneg j
    · rw [hscale]
      rw [hlut] at hj
      have hj2 : (j : ℤ) < ((2 ^ bits : ℕ) : ℤ) := by exact_mod_cast hj
      push_cast at hj2
      omega
  | cons p0 rest =>
    rw [interpolate_cons_def]
    rcases applyWrites_getD_cases (Array.mkArray lutSize 0) _ j with h0 | ⟨w, hw, hv⟩
    · rw [h0, getD_mkArray_zero]
      exact ⟨le_refl 0, hs⟩
    · rw [hv]
      rcases List.mem_append.mp hw with hw12 | hwR
      · rcases List.mem_append.mp hw12 with hwL | hwS
        · obtain ⟨t, ht, hwt⟩ := mem_constWrites hwL
          subst hwt
          exact ⟨clampScale_nonneg _ _ hs, clampScale_le _ _⟩
        · obtain ⟨q, hq⟩ := mem_splineWrites_val _ _ _ hwS
          rw [hq]
          exact ⟨clampScale_nonneg _ _ hs, clampScale_le _ _⟩
      · obtain ⟨t, ht, hwt⟩ := mem_constWrites hwR
        subst hwt
        exact ⟨clampScale_nonneg _ _ hs, clampScale_le _ _⟩

/-- C3 witness: the two-point identity curve at 8-bit depth. -/
theorem c3_lut_size_and_range_witness :
    (interpolate [⟨0, 0⟩, ⟨1, 1⟩] 256 255).size = 256 ∧
    ∀ j < 256, 0 ≤ (interpolate [⟨0, 0⟩, ⟨1, 1⟩] 256 255).getD j 0 ∧
      (interpolate [⟨0, 0⟩, ⟨1, 1⟩] 256 255).getD j 0 ≤ 255 :=
  c3_lut_size_and_range 8 (by decide) (by decide) 256 255 (by decide) (by decide)
    [⟨0, 0⟩, ⟨1, 1⟩] (by decide)
    (by simp only [List.chain'_cons, List.chain'_singleton, and_true]; decide)
    (Or.inr (by decide))

theorem getD_applyWrites_untouched (lut : Array ℤ) (ws : List (ℕ × ℤ)) (j : ℕ)
    (h : ∀ w ∈ ws, w.1 ≠ j) :
    (applyWrites lut ws).getD j 0 = lut.getD j 0 := by
  rw [getD_applyWrites]
  have hnil : ws.filter (fun w => w.1 == j) = [] :=
    List.filter_eq_nil_iff.mpr fun w hw => by simpa using h w hw
  rw [hnil]
  rfl

/-- If a write `(j, v)` is followed only by writes at other indices, the
final value at `j` is `v`. -/
theorem getD_after_write (lut : Array ℤ) (pre post : List (ℕ × ℤ)) (j : ℕ) (v : ℤ)
    (hj : j < lut.size) (hpost : ∀ w ∈ post, w.1 ≠ j) :
    (applyWrites lut (pre ++ (j, v) :: post)).getD j 0 = v := by
  show ((pre ++ (j, v) :: post).foldl (fun a w => a.setD w.1 w.2) lut).getD j 0 = v
  rw [List.foldl_append]
  show (applyWrites ((applyWrites lut pre).setD j v) post).getD j 0 = v
  rw [getD_applyWrites_untouched _ _ _ hpost]
  exact getD_setD_eq _ _ _ (by rw [size_applyWrites]; exact hj)

/-- Decomposition of a non-empty constant fill into its first write and a
tail of writes at strictly larger indices. -/
theorem constWrites_head (lo hi v : ℤ) (hlt : lo < hi) :
    ∃ tail, constWrites lo hi v = (lo.toNat, v) :: tail ∧
      ∀ w ∈ tail, ∃ t : ℕ, w.1 = (lo + (t : ℤ) + 1).toNat := by
  unfold constWrites
  have hcnt : (hi - lo).toNat = (hi - lo - 1).toNat + 1 := by omega
  rw [hcnt, List.range_succ_eq_map, List.map_cons, List.map_map]
  refine ⟨List.map ((fun (t : ℕ) => ((lo + (t : ℤ)).toNat, v)) ∘ Nat.succ)
      (List.range (hi - lo - 1).toNat), List.cons_eq_cons.mpr ⟨by norm_num, rfl⟩, ?_⟩
  intro w hw
  obtain ⟨t, ht, hwt⟩ := List.mem_map.mp hw
  refine ⟨t, ?_⟩
  rw [← hwt]
  show (lo + ((t + 1 : ℕ) : ℤ)).toNat = (lo + (t : ℤ) + 1).toNat
  push_cast
  ring_nf

/-- Decomposition of a segment fill with `xStart < xEnd` into its first
write (the cubic at `xx = 0`, whose value is the constant coefficient `a`)
and a tail of writes at strictly larger indices. -/
theorem segWrites_head (scale : ℤ) (a b c d : ℚ) (xs xe : ℤ) (hlt : xs < xe) :
    ∃ tail, segWrites scale a b c d xs xe
        = (xs.toNat, clampScale (truncQ (a * (scale : ℚ) + 1/2)) scale) :: tail ∧
      ∀ w ∈ tail, ∃ t : ℕ, w.1 = (xs + (t : ℤ) + 1).toNat := by
  unfold segWrites
  have hcnt : (xe - xs + 1).toNat = (xe - xs).toNat + 1 := by omega
  rw [hcnt, List.range_succ_eq_map, List.map_cons, List.map_map]
  refine ⟨List.map ((fun (t : ℕ) =>
      let x : ℤ := xs + (t : ℤ)
      let xx : ℚ := ((x - xs : ℤ) : ℚ) / (scale : ℚ)
      let yy : ℚ := a + b * xx + c * xx * xx + d * xx * xx * xx
      (x.toNat, clampScale (truncQ (yy * (scale : ℚ) + 1/2)) scale)) ∘ Nat.succ)
      (List.range (xe - xs).toNat),
    List.cons_eq_cons.mpr ⟨?_, rfl⟩, ?_⟩
  · show ((xs + ((0 : ℕ) : ℤ)).toNat,
        clampScale (truncQ ((a + b * (((xs + ((0 : ℕ) : ℤ) - xs : ℤ) : ℚ) / (scale : ℚ))
          + c * ((((xs + ((0 : ℕ) : ℤ) - xs : ℤ) : ℚ)) / (scale : ℚ))
              * ((((xs + ((0 : ℕ) : ℤ) - xs : ℤ) : ℚ)) / (scale : ℚ))
          + d * ((((xs + ((0 : ℕ) : ℤ) - xs : ℤ) : ℚ)) / (scale : ℚ))
              * ((((xs + ((0 : ℕ) : ℤ) - xs : ℤ) : ℚ)) / (scale : ℚ))
              * ((((xs + ((0 : ℕ) : ℤ) - xs : ℤ) : ℚ)) / (scale : ℚ))) * (scale : ℚ) + 1/2))
          scale)
      = (xs.toNat, clampScale (truncQ (a * (scale : ℚ) + 1/2)) scale)
    norm_num
  · intro w hw
    obtain ⟨t, ht, hwt⟩ := List.mem_map.mp hw
    refine ⟨t, ?_⟩
    rw [← hwt]
    show (xs + ((t + 1 : ℕ) : ℤ)).toNat = (xs + (t : ℤ) + 1).toNat
    push_cast
    ring_nf

theorem getLastD_cons_cons (a b d : keypoint) (l : List keypoint) :
    (a :: b :: l).getLastD d = (b :: l).getLastD d := by
  simp [List.getLastD]

theorem getLastD_indep : ∀ (l : List keypoint) (a d1 d2 : keypoint),
    (a :: l).getLastD d1 = (a :: l).getLastD d2
  | [], _, _, _ => rfl
  | b :: l, a, d1, d2 => by
    rw [getLastD_cons_cons, getLastD_cons_cons]
    exact getLastD_indep l b d1 d2

theorem getLastD_mem : ∀ (l : List keypoint) (a d : keypoint),
    (a :: l).getLastD d ∈ a :: l
  | [], a, d => by simp [List.getLastD]
  | b :: l, a, d => by
    rw [getLastD_cons_cons]
    exact List.mem_cons_of_mem a (getLastD_mem l b d)

theorem truncQ_eq_floor (v : ℚ) (hv : 0 ≤ v) : truncQ v = ⌊v⌋ := by
  unfold truncQ
  rw [if_pos hv]

/-- The source's store expression written with floor and min/max, valid for
non-negative values and scales. -/
theorem roundClamp_eq_floor_form (v : ℚ) (scale : ℤ) (hv : 0 ≤ v) (hs : 0 ≤ scale) :
    roundClamp v scale = min (max ⌊v * (scale : ℚ) + 1/2⌋ 0) scale := by
  have hsc : (0 : ℚ) ≤ (scale : ℚ) := by exact_mod_cast hs
  have harg : (0 : ℚ) ≤ v * (scale : ℚ) + 1/2 := by nlinarith
  unfold roundClamp clampScale
  rw [truncQ_eq_floor _ harg]

/-- Decomposition of the segment loop on at least two points: the first
write is at the first point's grid position with the first point's rounded
y value, and every later write lands at a strictly larger index. -/
theorem splineWrites_cons_head (scale : ℤ) (h r : Array ℚ) (p0 p1 : keypoint)
    (rest : List keypoint)
    (hmono : List.Chain' (fun a b => gridPos a.x scale < gridPos b.x scale) (p0 :: p1 :: rest))
    (h0 : 0 ≤ gridPos p0.x scale) :
    ∃ tail, splineWrites scale h r (p0 :: p1 :: rest) 0
        = ((gridPos p0.x scale).toNat, roundClamp p0.y scale) :: tail ∧
      ∀ w ∈ tail, (gridPos p0.x scale).toNat < w.1 := by
  obtain ⟨hlt, hc2⟩ := List.chain'_cons.mp hmono
  rw [splineWrites]
  obtain ⟨tailS, hseg, htailS⟩ := segWrites_head scale p0.y _ _ _ _ _ hlt
  rw [hseg, List.cons_append]
  refine ⟨tailS ++ splineWrites scale h r (p1 :: rest) 1, rfl, ?_⟩
  intro w hw
  rcases List.mem_append.mp hw with h1 | h2
  · obtain ⟨t, hwt⟩ := htailS w h1
    omega
  · obtain ⟨z, hz1, hz2⟩ := mem_splineWrites_lb p1 rest 1 w hc2 h2
    omega

/-- C4: for every valid non-empty key point list and bit depth in 8..16,
the LUT value at the first point's grid position is the first point's
rounded, clamped y value, and likewise at the last point's grid position
(written by the right-padding pass). -/
theorem c4_endpoints (bits : ℕ) (h8 : 8 ≤ bits) (h16 : bits ≤ 16)
    (lutSize : ℕ) (scale : ℤ) (hlut : lutSize = 2 ^ bits)
    (hscale : scale = (2 ^ bits : ℤ) - 1) (pts : List keypoint)
    (hval : ∀ p ∈ pts, 0 ≤ p.x ∧ p.x ≤ 1 ∧ 0 ≤ p.y ∧ p.y ≤ 1)
    (hmono : pts.Chain' (fun a b => gridPos a.x scale < gridPos b.x scale))
    (hlen : 2 ≤ pts.length) :
    (interpolate pts lutSize scale).getD
        (⌊(pts.headD default).x * (scale : ℚ) + 1/2⌋).toNat 0
      = min (max ⌊(pts.headD default).y * (scale : ℚ) + 1/2⌋ 0) scale ∧
    (interpolate pts lutSize scale).getD
        (⌊(pts.getLastD default).x * (scale : ℚ) + 1/2⌋).toNat 0
      = min (max ⌊(pts.getLastD default).y * (scale : ℚ) + 1/2⌋ 0) scale := by
  have hpow : (0 : ℤ) < 2 ^ bits := pow_pos (by norm_num) bits
  have hs : 0 ≤ scale := by rw [hscale]; omega
  have hlsz : scale + 1 ≤ (lutSize : ℤ) := by
    rw [hlut, hscale]
    push_cast
    omega
  cases pts with
  | nil => simp at hlen
  | cons p0 tl =>
  cases tl with
  | nil => simp at hlen
  | cons p1 rest =>
  have hp0 := hval p0 (by simp)
  have hpLmem : (p0 :: p1 :: rest).getLastD default ∈ p0 :: p1 :: rest :=
    getLastD_mem _ _ _
  have hpL := hval _ hpLmem
  have hs0 : 0 ≤ gridPos p0.x scale := gridPos_nonneg _ _ hp0.1 hs
  have hs0le : gridPos p0.x scale ≤ scale := gridPos_le_scale _ _ hp0.1 hp0.2.1 hs
  have hsL0 : 0 ≤ gridPos ((p0 :: p1 :: rest).getLastD default).x scale :=
    gridPos_nonneg _ _ hpL.1 hs
  have hsLle : gridPos ((p0 :: p1 :: rest).getLastD default).x scale ≤ scale :=
    gridPos_le_scale _ _ hpL.1 hpL.2.1 hs
  have hlt01 : gridPos p0.x scale < gridPos p1.x scale := (List.chain'_cons.mp hmono).1
  have hc2 : List.Chain' (fun a b => gridPos a.x scale < gridPos b.x scale) (p1 :: rest) :=
    (List.chain'_cons.mp hmono).2
  have hLstep : (p0 :: p1 :: rest).getLastD default = (p1 :: rest).getLastD default :=
    getLastD_cons_cons p0 p1 default rest
  have hs1L : gridPos p1.x scale ≤ gridPos ((p0 :: p1 :: rest).getLastD default).x scale := by
    rw [hLstep]
    exact chain_last_ge rest p1 default hc2
  have hindep : (p0 :: p1 :: rest).getLastD p0 = (p0 :: p1 :: rest).getLastD default :=
    getLastD_indep (p1 :: rest) p0 p0 default
  constructor
  · simp only [List.headD_cons]
    rw [← gridPos_eq_floor p0.x scale hp0.1 hs,
      ← roundClamp_eq_floor_form p0.y scale hp0.2.2.1 hs]
    rw [interpolate_cons_def, hindep]
    obtain ⟨tail, hsw, htail⟩ :=
      splineWrites_cons_head scale (solveR (p0 :: p1 :: rest)).1
        (solveR (p0 :: p1 :: rest)).2 p0 p1 rest hmono hs0
    rw [hsw, List.append_assoc, List.cons_append]
    refine getD_after_write _ _ _ _ _ (by rw [Array.size_mkArray]; omega) ?_
    intro w hw
    rcases List.mem_append.mp hw with h1 | h2
    · have := htail w h1
      omega
    · obtain ⟨t, ht, hwt⟩ := mem_constWrites h2
      rw [hwt]
      show (gridPos ((p0 :: p1 :: rest).getLastD default).x scale + (t : ℤ)).toNat
        ≠ (gridPos p0.x scale).toNat
      omega
  · rw [← gridPos_eq_floor _ scale hpL.1 hs,
      ← roundClamp_eq_floor_form _ scale hpL.2.2.1 hs]
    rw [interpolate_cons_def, hindep]
    obtain ⟨tailR, hR, htailR⟩ :=
      constWrites_head (gridPos ((p0 :: p1 :: rest).getLastD default).x scale)
        (lutSize : ℤ) (roundClamp ((p0 :: p1 :: rest).getLastD default).y scale)
        (by omega)
    rw [hR]
    refine getD_after_write _ _ _ _ _ (by rw [Array.size_mkArray]; omega) ?_
    intro w hw
    obtain ⟨t, hwt⟩ := htailR w hw
    omega

/-- C4 witness: the two-point curve (0, 1/2), (1, 1) at 8-bit depth. -/
theorem c4_endpoints_witness :
    (interpolate [⟨0, 1/2⟩, ⟨1, 1⟩] 256 255).getD
        (⌊([(⟨0, 1/2⟩ : keypoint), ⟨1, 1⟩].headD default).x * ((255 : ℤ) : ℚ) + 1/2⌋).toNat 0
      = min (max ⌊([(⟨0, 1/2⟩ : keypoint), ⟨1, 1⟩].headD default).y * ((255 : ℤ) : ℚ) + 1/2⌋ 0) 255 ∧
    (interpolate [⟨0, 1/2⟩, ⟨1, 1⟩] 256 255).getD
        (⌊([(⟨0, 1/2⟩ : keypoint), ⟨1, 1⟩].getLastD default).x * ((255 : ℤ) : ℚ) + 1/2⌋).toNat 0
      = min (max ⌊([(⟨0, 1/2⟩ : keypoint), ⟨1, 1⟩].getLastD default).y * ((255 : ℤ) : ℚ) + 1/2⌋ 0) 255 :=
  c4_endpoints 8 (by decide) (by decide) 256 255 (by decide) (by decide)
    [⟨0, 1/2⟩, ⟨1, 1⟩] (by decide)
    (by simp only [List.chain'_cons, List.chain'_singleton, and_true]; decide)
    (by decide)

theorem getD_map (a : Array ℤ) (f : ℤ → ℤ) (v : ℕ) (hv : v < a.size) :
    (a.map f).getD v 0 = f (a.getD v 0) := by
  have hv2 : v < (a.map f).size := by rw [Array.size_map]; exact hv
  unfold Array.getD
  rw [dif_pos hv2, dif_pos hv]
  rw [Array.get_eq_getElem, Array.get_eq_getElem]
  exact Array.getElem_map f a v hv2

theorem solveChannel_ok_size {c : List ℚ} {lutSize : ℕ} {scale : ℤ} {g : Array ℤ}
    (h : solveChannel c lutSize scale = .ok g) : g.size = lutSize := by
  unfold solveChannel at h
  cases hp : parsePoints (toPairs c) scale with
  | error e => rw [hp] at h; cases h
  | ok pts =>
    rw [hp] at h
    injection h with h2
    rw [← h2]
    exact interpolate_size pts lutSize scale

theorem rawLuts_size (curves : Fin 4 → List ℚ) (bits : ℕ) (i : Fin 4)
    (h : (solveChannel (curves i) (2 ^ bits) ((2 ^ bits : ℤ) - 1)).isOk = true) :
    (rawLuts curves bits i).size = 2 ^ bits := by
  unfold rawLuts
  cases hres : solveChannel (curves i) (2 ^ bits) ((2 ^ bits : ℤ) - 1) with
  | error e =>
    rw [hres] at h
    rw [show (Except.error e : Except String (Array ℤ)).isOk = false from rfl] at h
    exact Bool.noConfusion h
  | ok g =>
    show g.size = 2 ^ bits
    exact solveChannel_ok_size hres

/-- C1: once the four channels are solved into raw LUTs, a non-empty master
curve list makes each color channel's final LUT the composition
`master ∘ channel` at every grid value, and an empty master list leaves all
LUTs unchanged. -/
theorem c1_master_composition (bits : ℕ) (h8 : 8 ≤ bits) (h16 : bits ≤ 16)
    (curves : Fin 4 → List ℚ)
    (hok : ∀ i : Fin 4, (solveChannel (curves i) (2 ^ bits) ((2 ^ bits : ℤ) - 1)).isOk = true) :
    (curves 3 ≠ [] → ∀ c : Fin 4, c.val < 3 → ∀ v : ℕ, v < 2 ^ bits →
      (composeMaster (curves 3) (rawLuts curves bits) c).getD v 0
        = (rawLuts curves bits 3).getD ((rawLuts curves bits c).getD v 0).toNat 0) ∧
    (curves 3 = [] → composeMaster (curves 3) (rawLuts curves bits) = rawLuts curves bits) := by
  constructor
  · intro hm c hc v hv
    unfold composeMaster
    rw [if_neg hm]
    show (if c.val < 3 then (rawLuts curves bits c).map
        (fun w => (rawLuts curves bits 3).getD w.toNat 0) else rawLuts curves bits c).getD v 0 = _
    rw [if_pos hc]
    have hsz : v < (rawLuts curves bits c).size := by
      rw [rawLuts_size curves bits c (hok c)]
      exact hv
    exact getD_map _ _ v hsz
  · intro hm
    unfold composeMaster
    rw [if_pos hm]

/-- C1 witness: a negate master over identity color channels at 8-bit
depth; instantiates the composition equality at channel 0, value 5. -/
theorem c1_master_composition_witness :
    (composeMaster ((fun i : Fin 4 => if i = 3 then [0, 1, 1, 0] else ([] : List ℚ)) 3)
        (rawLuts (fun i : Fin 4 => if i = 3 then [0, 1, 1, 0] else ([] : List ℚ)) 8) 0).getD 5 0
      = (rawLuts (fun i : Fin 4 => if i = 3 then [0, 1, 1, 0] else ([] : List ℚ)) 8 3).getD
          ((rawLuts (fun i : Fin 4 => if i = 3 then [0, 1, 1, 0] else ([] : List ℚ)) 8 0).getD
            5 0).toNat 0 :=
  (c1_master_composition 8 (by decide) (by decide)
      (fun i : Fin 4 => if i = 3 then [0, 1, 1, 0] else ([] : List ℚ))
      (by decide)).1 (by decide) 0 (by decide) 5 (by decide)

/-- One decoding step of the point loop on a 4-byte record. -/
theorem readPoints_cons4 (n : ℕ) (a0 a1 a2 a3 : ℕ) (buf : List ℕ) (acc : List ℚ) :
    readPoints (n + 1) (a0 :: a1 :: a2 :: a3 :: buf) acc
      = readPoints n buf
          (acc ++ [((a2 * 256 + a3 : ℕ) : ℚ) / 255, ((a0 * 256 + a1 : ℕ) : ℚ) / 255]) := rfl

/-- One decoding step of the block loop once two count bytes are present. -/
theorem acvLoop_step (i k : ℕ) (b0 b1 : ℕ) (buf : List ℕ) (curve : Fin 4 → List ℚ) :
    acvLoop i (k + 1) (b0 :: b1 :: buf) curve
      = match readPoints (b0 * 256 + b1) buf [] with
        | .error e => .error e
        | .ok (acvCurve, buf2) =>
          acvLoop (i + 1) k buf2
            (if curve (curveIndexFin i) = [] ∧ acvCurve ≠ []
             then Function.update curve (curveIndexFin i) acvCurve else curve) := rfl

/-- Decoding the encoded point records of one curve block yields exactly
the swapped, normalized flat curve, consuming exactly the block's bytes. -/
theorem readPoints_encode : ∀ (ps : List (ℕ × ℕ)) (acc : List ℚ) (rest : List ℕ),
    readPoints ps.length ((ps.map encodePoint).flatten ++ rest) acc
      = .ok (acc ++ acvPoints ps, rest)
  | [], acc, rest => by simp [readPoints, acvPoints]
  | p :: ps, acc, rest => by
    show readPoints (ps.length + 1)
        (p.1 / 256 :: p.1 % 256 :: p.2 / 256 :: p.2 % 256
          :: ((ps.map encodePoint).flatten ++ rest)) acc
      = .ok (acc ++ acvPoints (p :: ps), rest)
    rw [readPoints_cons4]
    have hx : p.2 / 256 * 256 + p.2 % 256 = p.2 := by omega
    have hy : p.1 / 256 * 256 + p.1 % 256 = p.1 := by omega
    rw [hx, hy, readPoints_encode ps _ rest]
    have hacv : acvPoints (p :: ps) = [(p.2 : ℚ) / 255, (p.1 : ℚ) / 255] ++ acvPoints ps := rfl
    rw [hacv, ← List.append_assoc]

/-- Decoding the encoded blocks applies each curve to its mapped channel in
order, honoring the explicit-curve precedence. -/
theorem acvLoop_encode : ∀ (cs : List (List (ℕ × ℕ))) (i : ℕ) (curve : Fin 4 → List ℚ)
    (rest : List ℕ),
    acvLoop i cs.length ((cs.map encodeCurve).flatten ++ rest) curve
      = .ok (applyAcvCurves i cs curve)
  | [], i, curve, rest => rfl
  | c :: cs, i, curve, rest => by
    show acvLoop i (cs.length + 1)
        (c.length / 256 :: c.length % 256
          :: (((c.map encodePoint).flatten ++ (cs.map encodeCurve).flatten) ++ rest)) curve
      = .ok (applyAcvCurves i (c :: cs) curve)
    rw [acvLoop_step]
    have hlen : c.length / 256 * 256 + c.length % 256 = c.length := by omega
    rw [hlen, List.append_assoc, readPoints_encode c [] _]
    show acvLoop (i + 1) cs.length ((cs.map encodeCurve).flatten ++ rest)
        (if curve (curveIndexFin i) = [] ∧ [] ++ acvPoints c ≠ []
         then Function.update curve (curveIndexFin i) ([] ++ acvPoints c) else curve)
      = .ok (applyAcvCurves i (c :: cs) curve)
    simp only [List.nil_append]
    rw [acvLoop_encode cs (i + 1) _ rest]
    rfl

/-- C8: decoding a well-formed ACV buffer (with arbitrary trailing bytes)
assigns decoded block `i` (for `i < min(curveCount, 4)`) to internal
channel `{3,0,1,2}[i]`, stores each on-disk `(y,x)` record as the point
`(x/255, y/255)`, and applies a non-empty decoded curve only to a channel
with no explicit points. -/
theorem c8_acv_decode (version : ℕ) (cs : List (List (ℕ × ℕ))) (extra : List ℕ)
    (curve0 : Fin 4 → List ℚ) (hv : version < 65536) (hlen : cs.length < 65536)
    (hcs : ∀ c ∈ cs, c.length < 65536 ∧ ∀ p ∈ c, p.1 < 65536 ∧ p.2 < 65536) :
    decodeAcv (encodeAcv version cs ++ extra) curve0
      = .ok (applyAcvCurves 0 (cs.take 4) curve0) := by
  show acvLoop 0 (min (cs.length / 256 * 256 + cs.length % 256) 4)
      ((cs.map encodeCurve).flatten ++ extra) curve0
    = .ok (applyAcvCurves 0 (cs.take 4) curve0)
  have h1 : cs.length / 256 * 256 + cs.length % 256 = cs.length := by omega
  rw [h1]
  by_cases hle : cs.length ≤ 4
  · rw [min_eq_left hle, List.take_of_length_le hle]
    exact acvLoop_encode cs 0 curve0 extra
  · rw [min_eq_right (by omega)]
    have hflat : (cs.map encodeCurve).flatten
        = ((cs.take 4).map encodeCurve).flatten ++ ((cs.drop 4).map encodeCurve).flatten := by
      conv_lhs => rw [← List.take_append_drop 4 cs]
      rw [List.map_append, List.flatten_append]
    rw [hflat, List.append_assoc]
    have h4 : (cs.take 4).length = 4 := by rw [List.length_take]; omega
    have hloop := acvLoop_encode (cs.take 4) 0 curve0
      (((cs.drop 4).map encodeCurve).flatten ++ extra)
    rw [h4] at hloop
    exact hloop

/-- C8 witness: a one-curve buffer with two records decodes onto the master
channel of an all-empty curve set. -/
theorem c8_acv_decode_witness :
    decodeAcv (encodeAcv 0 [[(0, 0), (255, 255)]] ++ []) (fun _ => [])
      = .ok (applyAcvCurves 0 ([[(0, 0), (255, 255)]].take 4) (fun _ => [])) :=
  c8_acv_decode 0 [[(0, 0), (255, 255)]] [] (fun _ => []) (by decide) (by decide)
    (by decide)

/-- The point loop fails exactly when the declared records do not fit, and
consumes exactly the declared bytes when they do. -/
theorem readPoints_fits : ∀ (n : ℕ) (buf : List ℕ) (acc : List ℚ),
    (pointsFit n buf = none → readPoints n buf acc = .error invalidAcvMsg) ∧
    (∀ rest, pointsFit n buf = some rest → ∃ l, readPoints n buf acc = .ok (l, rest))
  | 0, buf, acc => by
    refine ⟨fun h => (nomatch h), fun rest h => ⟨acc, ?_⟩⟩
    injection h with h2
    rw [h2]
    rfl
  | n + 1, [], acc => ⟨fun _ => rfl, fun rest h => nomatch h⟩
  | n + 1, [a], acc => ⟨fun _ => rfl, fun rest h => nomatch h⟩
  | n + 1, [a, b], acc => ⟨fun _ => rfl, fun rest h => nomatch h⟩
  | n + 1, [a, b, c], acc => ⟨fun _ => rfl, fun rest h => nomatch h⟩
  | n + 1, a0 :: a1 :: a2 :: a3 :: buf, acc => by
    constructor
    · intro h
      rw [readPoints_cons4]
      exact (readPoints_fits n buf _).1 h
    · intro rest h
      rw [readPoints_cons4]
      exact (readPoints_fits n buf _).2 rest h

/-- The block loop fails with the invalid-acv error exactly when the
declared blocks do not fit. -/
theorem blocksFit_acvLoop : ∀ (k : ℕ) (buf : List ℕ) (i : ℕ) (curve : Fin 4 → List ℚ),
    (blocksFit k buf = false → acvLoop i k buf curve = .error invalidAcvMsg) ∧
    (blocksFit k buf = true → ∃ c, acvLoop i k buf curve = .ok c)
  | 0, buf, i, curve => ⟨fun h => (nomatch h), fun _ => ⟨curve, rfl⟩⟩
  | k + 1, [], i, curve => ⟨fun _ => rfl, fun h => nomatch h⟩
  | k + 1, [b0], i, curve => ⟨fun _ => rfl, fun h => nomatch h⟩
  | k + 1, b0 :: b1 :: rest, i, curve => by
    rw [acvLoop_step]
    have hbf : blocksFit (k + 1) (b0 :: b1 :: rest)
        = match pointsFit (b0 * 256 + b1) rest with
          | some rest1 => blocksFit k rest1
          | none => false := rfl
    cases hpf : pointsFit (b0 * 256 + b1) rest with
    | none =>
      have hrp := (readPoints_fits (b0 * 256 + b1) rest []).1 hpf
      rw [hrp, hbf, hpf]
      exact ⟨fun _ => rfl, fun h => nomatch h⟩
    | some rest1 =>
      obtain ⟨l, hrp⟩ := (readPoints_fits (b0 * 256 + b1) rest []).2 rest1 hpf
      rw [hrp, hbf, hpf]
      exact blocksFit_acvLoop k rest1 (i + 1) _

/-- C9: every 16-bit read first checks that 2 bytes remain, and a buffer
whose declared structure does not fit inside it makes the decoder fail with
the invalid-acv-file error, while a fitting buffer decodes successfully. -/
theorem c9_truncation (bytes : List ℕ) (curve : Fin 4 → List ℚ) :
    ((read16 bytes).isOk = true ↔ 2 ≤ bytes.length) ∧
    (acvFits bytes = false → decodeAcv bytes curve = .error invalidAcvMsg) ∧
    (acvFits bytes = true → ∃ c, decodeAcv bytes curve = .ok c) := by
  rcases bytes with _ | ⟨b0, _ | ⟨b1, _ | ⟨b2, _ | ⟨b3, rest⟩⟩⟩⟩
  · exact ⟨by simp [read16, Except.isOk, Except.toBool], fun _ => rfl, fun h => nomatch h⟩
  · exact ⟨by simp [read16, Except.isOk, Except.toBool], fun _ => rfl, fun h => nomatch h⟩
  · refine ⟨by simp [read16, Except.isOk, Except.toBool], fun _ => rfl, fun h => nomatch h⟩
  · refine ⟨by simp [read16, Except.isOk, Except.toBool], fun _ => rfl, fun h => nomatch h⟩
  · refine ⟨by simp [read16, Except.isOk, Except.toBool], ?_, ?_⟩
    · intro h
      exact (blocksFit_acvLoop (min (b2 * 256 + b3) 4) rest 0 curve).1 h
    · intro h
      exact (blocksFit_acvLoop (min (b2 * 256 + b3) 4) rest 0 curve).2 h

/-- C9 witness: a three-byte buffer cannot hold the version and curve-count
fields, and the decoder rejects it with the invalid-acv-file error. -/
theorem c9_truncation_witness :
    acvFits [0, 0, 0] = false ∧
    decodeAcv [0, 0, 0] (fun _ => []) = .error invalidAcvMsg :=
  ⟨by decide, (c9_truncation [0, 0, 0] (fun _ => [])).2.1 (by decide)⟩

set_option maxRecDepth 8000 in
/-- C5: preset 8 with no explicit curves at 8-bit depth produces the exact
full-negate master LUT, `LUT[3][i] = 255 - i`. -/
theorem c5_preset8_negate :
    ∀ i : ℕ, i < 256 →
      ((curveCreateLUTs 8 [] [] [] [] none 8).toOption.getD (fun _ => #[]) 3).getD i 0
        = 255 - (i : ℤ) := by
  have hpipe : curveCreateLUTs 8 [] [] [] [] none 8
      = match buildChannels (presetCurves 8 (fun j : Fin 4 =>
            if j = 0 then ([] : List ℚ) else if j = 1 then [] else if j = 2 then [] else []))
            (2 ^ 8) ((2 ^ 8 : ℤ) - 1) with
        | .error e => .error e
        | .ok g => .ok (composeMaster (presetCurves 8 (fun j : Fin 4 =>
            if j = 0 then ([] : List ℚ) else if j = 1 then [] else if j = 2 then [] else []) 3) g) :=
    rfl
  have hbc : buildChannels (presetCurves 8 (fun j : Fin 4 =>
        if j = 0 then ([] : List ℚ) else if j = 1 then [] else if j = 2 then [] else []))
        (2 ^ 8) ((2 ^ 8 : ℤ) - 1)
      = .ok (fun j : Fin 4 =>
          if j = 0 then interpolate [] (2 ^ 8) ((2 ^ 8 : ℤ) - 1)
          else if j = 1 then interpolate [] (2 ^ 8) ((2 ^ 8 : ℤ) - 1)
          else if j = 2 then interpolate [] (2 ^ 8) ((2 ^ 8 : ℤ) - 1)
          else interpolate [⟨0, 1⟩, ⟨1, 0⟩] (2 ^ 8) ((2 ^ 8 : ℤ) - 1)) := by
    unfold buildChannels
    simp only [show parsePoints (toPairs (presetCurves 8 (fun j : Fin 4 =>
        if j = 0 then ([] : List ℚ) else if j = 1 then [] else if j = 2 then [] else []) 0))
        ((2 ^ 8 : ℤ) - 1) = .ok [] from by decide,
      show parsePoints (toPairs (presetCurves 8 (fun j : Fin 4 =>
        if j = 0 then ([] : List ℚ) else if j = 1 then [] else if j = 2 then [] else []) 1))
        ((2 ^ 8 : ℤ) - 1) = .ok [] from by decide,
      show parsePoints (toPairs (presetCurves 8 (fun j : Fin 4 =>
        if j = 0 then ([] : List ℚ) else if j = 1 then [] else if j = 2 then [] else []) 2))
        ((2 ^ 8 : ℤ) - 1) = .ok [] from by decide,
      show parsePoints (toPairs (presetCurves 8 (fun j : Fin 4 =>
        if j = 0 then ([] : List ℚ) else if j = 1 then [] else if j = 2 then [] else []) 3))
        ((2 ^ 8 : ℤ) - 1) = .ok [⟨0, 1⟩, ⟨1, 0⟩] from by decide]
  have hmain : (curveCreateLUTs 8 [] [] [] [] none 8).toOption.getD (fun _ => #[]) 3
      = interpolate [⟨0, 1⟩, ⟨1, 0⟩] (2 ^ 8) ((2 ^ 8 : ℤ) - 1) := by
    rw [hpipe, hbc]
    show (Except.ok (composeMaster (presetCurves 8 (fun j : Fin 4 =>
        if j = 0 then ([] : List ℚ) else if j = 1 then [] else if j = 2 then [] else []) 3)
        (fun j : Fin 4 =>
          if j = 0 then interpolate [] (2 ^ 8) ((2 ^ 8 : ℤ) - 1)
          else if j = 1 then interpolate [] (2 ^ 8) ((2 ^ 8 : ℤ) - 1)
          else if j = 2 then interpolate [] (2 ^ 8) ((2 ^ 8 : ℤ) - 1)
          else interpolate [⟨0, 1⟩, ⟨1, 0⟩] (2 ^ 8) ((2 ^ 8 : ℤ) - 1))) :
            Except String (Fin 4 → Array ℤ)).toOption.getD (fun _ => #[]) 3
      = interpolate [⟨0, 1⟩, ⟨1, 0⟩] (2 ^ 8) ((2 ^ 8 : ℤ) - 1)
    rw [show ∀ (z : Fin 4 → Array ℤ), (Except.ok z : Except String (Fin 4 → Array ℤ)).toOption.getD
        (fun _ => #[]) = z from fun z => rfl]
    show composeMaster (presetCurves 8 (fun j : Fin 4 =>
        if j = 0 then ([] : List ℚ) else if j = 1 then [] else if j = 2 then [] else []) 3)
        (fun j : Fin 4 =>
          if j = 0 then interpolate [] (2 ^ 8) ((2 ^ 8 : ℤ) - 1)
          else if j = 1 then interpolate [] (2 ^ 8) ((2 ^ 8 : ℤ) - 1)
          else if j = 2 then interpolate [] (2 ^ 8) ((2 ^ 8 : ℤ) - 1)
          else interpolate [⟨0, 1⟩, ⟨1, 0⟩] (2 ^ 8) ((2 ^ 8 : ℤ) - 1)) 3
      = interpolate [⟨0, 1⟩, ⟨1, 0⟩] (2 ^ 8) ((2 ^ 8 : ℤ) - 1)
    rfl
  have hstep : ∀ i : ℕ, i < 256 →
      (interpolate [⟨0, 1⟩, ⟨1, 0⟩] (2 ^ 8) ((2 ^ 8 : ℤ) - 1)).getD i 0 = 255 - (i : ℤ) := by
    simp only [interpolate, getD_applyWrites, Array.size_mkArray]
    decide
  intro i hi
  rw [hmain]
  exact hstep i hi

/-- C5 witness: the full-negate master LUT at grid value 7. -/
theorem c5_preset8_negate_witness :
    ((curveCreateLUTs 8 [] [] [] [] none 8).toOption.getD (fun _ => #[]) 3).getD 7 0
      = 255 - (7 : ℤ) :=
  c5_preset8_negate 7 (by decide)

/-- A point list containing an out-of-range coordinate always makes the
parse loop fail, with either the range error or the non-monotonicity error
(whichever violation is encountered first). -/
theorem parseLoop_err_of_bad (scale : ℤ) :
    ∀ (l : List (ℚ × ℚ)) (last : Option (ℚ × ℚ)),
    (∃ q ∈ l, q.1 < 0 ∨ 1 < q.1 ∨ q.2 < 0 ∨ 1 < q.2) →
    ∃ e, parseLoop scale l last = .error e ∧
      (e = invalidRangeMsg ∨ e = nonMonotonicMsg)
  | [], _, h => absurd h (by simp)
  | p :: rest, last, h => by
    by_cases hp : p.1 < 0 ∨ p.1 > 1 ∨ p.2 < 0 ∨ p.2 > 1
    · refine ⟨invalidRangeMsg, ?_, Or.inl rfl⟩
      cases last <;> simp [parseLoop, hp]
    · have hrest : ∃ q ∈ rest, q.1 < 0 ∨ 1 < q.1 ∨ q.2 < 0 ∨ 1 < q.2 := by
        obtain ⟨q, hq, hbad⟩ := h
        rcases List.mem_cons.mp hq with hqp | hq2
        · subst hqp
          exact absurd hbad hp
        · exact ⟨q, hq2, hbad⟩
      cases last with
      | none =>
        obtain ⟨e, he, hor⟩ := parseLoop_err_of_bad scale rest (some p) hrest
        exact ⟨e, by simp [parseLoop, hp, he], hor⟩
      | some lp =>
        by_cases hg : gridPos lp.1 scale ≥ gridPos p.1 scale
        · exact ⟨nonMonotonicMsg, by simp [parseLoop, hp, hg], Or.inr rfl⟩
        · obtain ⟨e, he, hor⟩ := parseLoop_err_of_bad scale rest (some p) hrest
          exact ⟨e, by simp [parseLoop, hp, hg, he], hor⟩

/-- The parse loop only ever throws the range error or the non-monotonicity
error. -/
theorem parseLoop_err_msgs (scale : ℤ) :
    ∀ (l : List (ℚ × ℚ)) (last : Option (ℚ × ℚ)) (e : String),
    parseLoop scale l last = .error e →
    e = invalidRangeMsg ∨ e = nonMonotonicMsg
  | [], _, e, h => nomatch h
  | p :: rest, last, e, h => by
    by_cases hp : p.1 < 0 ∨ p.1 > 1 ∨ p.2 < 0 ∨ p.2 > 1
    · left
      cases last <;> simp only [parseLoop, if_pos hp] at h <;>
        exact (Except.error.injEq _ _).mp h.symm
    · cases last with
      | none =>
        cases hrec : parseLoop scale rest (some p) with
        | error e2 =>
          simp only [parseLoop, if_neg hp, hrec] at h
          have h2 : e2 = e := (Except.error.injEq _ _).mp h
          rw [← h2]
          exact parseLoop_err_msgs scale rest (some p) e2 hrec
        | ok tl =>
          simp only [parseLoop, if_neg hp, hrec] at h
          cases h
      | some lp =>
        by_cases hg : gridPos lp.1 scale ≥ gridPos p.1 scale
        · right
          simp only [parseLoop, if_neg hp, if_pos hg] at h
          exact ((Except.error.injEq _ _).mp h).symm
        · cases hrec : parseLoop scale rest (some p) with
          | error e2 =>
            simp only [parseLoop, if_neg hp, if_neg hg, hrec] at h
            have h2 : e2 = e := (Except.error.injEq _ _).mp h
            rw [← h2]
            exact parseLoop_err_msgs scale rest (some p) e2 hrec
          | ok tl =>
            simp only [parseLoop, if_neg hp, if_neg hg, hrec] at h
            cases h

/-- `parsePoints` only ever throws one of the three validation errors. -/
theorem parsePoints_err_msgs (l : List (ℚ × ℚ)) (scale : ℤ) (e : String)
    (h : parsePoints l scale = .error e) :
    e = invalidRangeMsg ∨ e = nonMonotonicMsg ∨ e = onePointMsg := by
  unfold parsePoints at h
  cases hrec : parseLoop scale l none with
  | error e2 =>
    rw [hrec] at h
    have h2 : e2 = e := (Except.error.injEq _ _).mp h
    rw [← h2]
    rcases parseLoop_err_msgs scale l none e2 hrec with h3 | h3
    · exact Or.inl h3
    · exact Or.inr (Or.inl h3)
  | ok pts =>
    rw [hrec] at h
    have h2 : (if pts.length = 1 then (Except.error onePointMsg : Except String (List keypoint))
        else Except.ok pts) = Except.error e := h
    by_cases hl : pts.length = 1
    · rw [if_pos hl] at h2
      exact Or.inr (Or.inr ((Except.error.injEq _ _).mp h2).symm)
    · rw [if_neg hl] at h2
      cases h2

/-- A point list containing an out-of-range coordinate always makes
`parsePoints` fail with the range error or the non-monotonicity error. -/
theorem parsePoints_err_of_bad (l : List (ℚ × ℚ)) (scale : ℤ)
    (h : ∃ q ∈ l, q.1 < 0 ∨ 1 < q.1 ∨ q.2 < 0 ∨ 1 < q.2) :
    ∃ e, parsePoints l scale = .error e ∧
      (e = invalidRangeMsg ∨ e = nonMonotonicMsg) := by
  obtain ⟨e, he, hor⟩ := parseLoop_err_of_bad scale l none h
  exact ⟨e, by unfold parsePoints; rw [he], hor⟩

/-- Any error of `buildChannels` is one of the three validation errors. -/
theorem buildChannels_err (curve : Fin 4 → List ℚ) (lutSize : ℕ) (scale : ℤ) (e : String)
    (h : buildChannels curve lutSize scale = .error e) :
    e = invalidRangeMsg ∨ e = nonMonotonicMsg ∨ e = onePointMsg := by
  unfold buildChannels at h
  cases h0 : parsePoints (toPairs (curve 0)) scale with
  | error e0 =>
    rw [h0] at h
    rw [← (Except.error.injEq _ _).mp h]
    exact parsePoints_err_msgs _ _ _ h0
  | ok p0 =>
  rw [h0] at h
  cases h1 : parsePoints (toPairs (curve 1)) scale with
  | error e1 =>
    rw [h1] at h
    rw [← (Except.error.injEq _ _).mp h]
    exact parsePoints_err_msgs _ _ _ h1
  | ok p1 =>
  rw [h1] at h
  cases h2 : parsePoints (toPairs (curve 2)) scale with
  | error e2 =>
    rw [h2] at h
    rw [← (Except.error.injEq _ _).mp h]
    exact parsePoints_err_msgs _ _ _ h2
  | ok p2 =>
  rw [h2] at h
  cases h3 : parsePoints (toPairs (curve 3)) scale with
  | error e3 =>
    rw [h3] at h
    rw [← (Except.error.injEq _ _).mp h]
    exact parsePoints_err_msgs _ _ _ h3
  | ok p3 =>
  rw [h3] at h
  cases h

/-- If any channel's resolved curve contains an out-of-range coordinate,
`buildChannels` fails with one of the three validation errors. -/
theorem buildChannels_err_of_bad (curve : Fin 4 → List ℚ) (lutSize : ℕ) (scale : ℤ)
    (hbad : ∃ c : Fin 4, ∃ q ∈ toPairs (curve c), q.1 < 0 ∨ 1 < q.1 ∨ q.2 < 0 ∨ 1 < q.2) :
    ∃ e, buildChannels curve lutSize scale = .error e ∧
      (e = invalidRangeMsg ∨ e = nonMonotonicMsg ∨ e = onePointMsg) := by
  cases hb : buildChannels curve lutSize scale with
  | error e => exact ⟨e, rfl, buildChannels_err curve lutSize scale e hb⟩
  | ok g =>
    exfalso
    obtain ⟨c, hq⟩ := hbad
    obtain ⟨e, he, -⟩ := parsePoints_err_of_bad (toPairs (curve c)) scale hq
    unfold buildChannels at hb
    cases h0 : parsePoints (toPairs (curve 0)) scale with
    | error e0 => rw [h0] at hb; cases hb
    | ok p0 =>
    rw [h0] at hb
    cases h1 : parsePoints (toPairs (curve 1)) scale with
    | error e1 => rw [h1] at hb; cases hb
    | ok p1 =>
    rw [h1] at hb
    cases h2 : parsePoints (toPairs (curve 2)) scale with
    | error e2 => rw [h2] at hb; cases hb
    | ok p2 =>
    rw [h2] at hb
    cases h3 : parsePoints (toPairs (curve 3)) scale with
    | error e3 => rw [h3] at hb; cases hb
    | ok p3 =>
    have hok : ∀ j : Fin 4, ∃ pj, parsePoints (toPairs (curve j)) scale = Except.ok pj := by
      intro j
      fin_cases j
      · exact ⟨p0, h0⟩
      · exact ⟨p1, h1⟩
      · exact ⟨p2, h2⟩
      · exact ⟨p3, h3⟩
    obtain ⟨pc, hpc⟩ := hok c
    rw [hpc] at he
    cases he

/-- C10 counterexample: an ACV buffer whose applied master curve has an
in-range but non-monotonic pair before the >255 field: the decoder accepts
the record and produces a coordinate greater than 1, but construction then
fails with the non-monotonicity error, not the range error the claim
names. -/
theorem c10_counterexample :
    (decodeAcv [0, 0, 0, 1, 0, 3, 0, 0, 0, 130, 0, 0, 0, 120, 0, 0, 1, 44]
        (fun _ => ([] : List ℚ))).toOption.getD (fun _ => []) 3
      = [130/255, 0, 120/255, 0, 300/255, 0] ∧
    (1 : ℚ) < 300/255 ∧
    curveCreateLUTs 0 [] [] [] []
        (some [0, 0, 0, 1, 0, 3, 0, 0, 0, 130, 0, 0, 0, 120, 0, 0, 1, 44]) 8
      = .error nonMonotonicMsg ∧
    nonMonotonicMsg ≠ invalidRangeMsg :=
  ⟨by decide, by decide, by decide, by decide⟩

/-- C10 (amended): when the ACV decoder succeeds and some applied curve
contains a normalized coordinate greater than 1 (as any u16 field above
255 produces), LUT construction fails with one of the three key point
validation errors — never with the ACV format error, and the coordinate is
never clamped. -/
theorem c10_oob_coordinate (bytes : List ℕ) (bits : ℕ) (curved : Fin 4 → List ℚ)
    (hdec : decodeAcv bytes (fun _ => ([] : List ℚ)) = .ok curved)
    (hbad : ∃ c : Fin 4, ∃ q ∈ toPairs (curved c), 1 < q.1 ∨ 1 < q.2) :
    ∃ e, curveCreateLUTs 0 [] [] [] [] (some bytes) bits = .error e ∧
      (e = invalidRangeMsg ∨ e = nonMonotonicMsg ∨ e = onePointMsg) ∧
      e ≠ invalidAcvMsg := by
  have hc0 : (fun j : Fin 4 => if j = 0 then ([] : List ℚ) else if j = 1 then []
      else if j = 2 then [] else []) = (fun _ => ([] : List ℚ)) := by
    funext j
    fin_cases j <;> rfl
  have hbad2 : ∃ c : Fin 4, ∃ q ∈ toPairs (presetCurves 0 curved c),
      q.1 < 0 ∨ 1 < q.1 ∨ q.2 < 0 ∨ 1 < q.2 := by
    obtain ⟨c, q, hq, hb⟩ := hbad
    refine ⟨c, q, hq, ?_⟩
    rcases hb with h | h
    · exact Or.inr (Or.inl h)
    · exact Or.inr (Or.inr (Or.inr h))
  obtain ⟨e, he, hm⟩ :=
    buildChannels_err_of_bad (presetCurves 0 curved) (2 ^ bits) ((2 ^ bits : ℤ) - 1) hbad2
  refine ⟨e, ?_, hm, ?_⟩
  · simp [curveCreateLUTs, hc0, hdec, he]
  · rcases hm with rfl | rfl | rfl <;> decide

/-- C10 witness: a one-point master curve with x field 300 (normalized to
300/255 > 1) makes construction fail with the range error. -/
theorem c10_oob_coordinate_witness :
    ∃ e, curveCreateLUTs 0 [] [] [] []
        (some [0, 0, 0, 1, 0, 1, 0, 0, 1, 44]) 8 = .error e ∧
      (e = invalidRangeMsg ∨ e = nonMonotonicMsg ∨ e = onePointMsg) ∧
      e ≠ invalidAcvMsg :=
  c10_oob_coordinate [0, 0, 0, 1, 0, 1, 0, 0, 1, 44] 8
    (Function.update (fun _ => ([] : List ℚ)) (curveIndexFin 0) [300/255, 0])
    (by rfl) ⟨3, (300/255, 0), by decide, Or.inl (by decide)⟩
